import Mathlib

/-!
Shallow embedding of the TableCore grid engine (MCL-Manage/TableCore).

The definitions below are translated from:
  - `src/core/useClipboard.ts` (`parseTSV`)
  - `src/core/useUndoRedo.ts` (`push` / `undo` / `redo`)
  - `src/core/TableCore.tsx`, which contains two variants of the component:
    the tree-mode variant (`doCopy`, `doPaste`, `clearSelectionWithDelete`,
    `setSingle`/`setRange`, `commitEdit`, `setParent`/`indentRow`/`outdentRow`,
    the expanded-set reconciliation effect) and the earlier flat variant
    (`commitSingleEdit`, which validates on commit).

JS strings that flow through the clipboard are modelled as `List Char`
(`JStr`), so that the exact `split` / `join` / `replace` semantics of the
code can be stated and proved. Cell values are modelled by `Value`; the
caller-supplied per-column `parse` and `validate` callbacks are opaque
function fields, exactly as the component treats them. (IEEE doubles are
not modelled; `Value.num` carries the integers used by the claims, and the
built-in `coerce` fallback for `number` columns is subsumed by the opaque
`parse` field.)
-/

/-- Contents of a JS string, as the list of its characters. -/
abbrev JStr := List Char

/-- A JS cell value as stored in a row's field map: `undefined`, `null`,
a string, or a number. -/
inductive Value where
  | undefined
  | null
  | str (s : String)
  | num (n : Int)
deriving DecidableEq, Repr

/-- Stringification used by `doCopy`: `val == null ? '' : String(val)`
(JS `==` identifies `null` and `undefined`). -/
def stringifyCell : Value → JStr
  | .undefined => []
  | .null => []
  | .str s => s.data
  | .num n => (toString n).data

/-- JS `String.prototype.split` with a one-character separator:
`"".split(s)` is `[""]`, separators at the ends produce empty fragments. -/
def splitCh (sep : Char) : JStr → List JStr
  | [] => [[]]
  | a :: rest =>
    if a = sep then [] :: splitCh sep rest
    else (a :: (splitCh sep rest).headD []) :: (splitCh sep rest).tail

/-- JS `Array.prototype.join` with a one-character separator. -/
def joinCh (sep : Char) : List JStr → JStr
  | [] => []
  | [l] => l
  | l :: l2 :: ls => l ++ sep :: joinCh sep (l2 :: ls)

/-- JS `Array.prototype.join` with a multi-character separator
(used to build CRLF-terminated inputs in the statements). -/
def joinSeq (sep : JStr) : List JStr → JStr
  | [] => []
  | [l] => l
  | l :: l2 :: ls => l ++ sep ++ joinSeq sep (l2 :: ls)

/-- Deletion of every carriage return: `text.replace(/\r/g, '')`. -/
def dropCR (text : JStr) : JStr := text.filter (fun ch => ch ≠ '\r')

/-- The clipboard deserializer `parseTSV` of `useClipboard.ts`:

  `text.replace(/\r/g, '').split('\n').filter(l => l.length || text.endsWith('\n')).map(line => line.split('\t'))`

Note that the filter keeps every line (empty ones included) when the
original text ends in a newline, and drops every empty line otherwise. -/
def parseTSV (text : JStr) : List (List JStr) :=
  let endsNL : Bool := text.getLast? == some '\n'
  let lines := splitCh '\n' (dropCR text)
  (lines.filter (fun l => !l.isEmpty || endsNL)).map (splitCh '\t')

/-- Column value type (`ColumnDef.type`). -/
inductive ColType where
  | text
  | number
  | date
  | select
  | color
  | custom
deriving DecidableEq, Repr

/-- A row: a unique id plus an open field map keyed by column id. -/
structure Row where
  id : String
  cells : List (String × Value)
deriving DecidableEq, Repr

/-- Field read `row[colId]`: a missing key reads as `undefined`. -/
def Row.get (r : Row) (colId : String) : Value :=
  (r.cells.lookup colId).getD .undefined

/-- Field write: the JS assignment `row[colId] = v` performed by the host
when it applies a change. -/
def Row.set (r : Row) (colId : String) (v : Value) : Row :=
  ⟨r.id, (colId, v) :: r.cells.filter (fun kv => kv.1 ≠ colId)⟩

/-- A column descriptor, restricted to the fields the engine reads:
`id`, `type`, the text-to-value parser (the code uses
`col.parse ? col.parse(txt) : coerce(col.type, txt)`; the combined function
is the `parse` field here), and the optional validator (the code checks
`col.validate(v, row) instanceof Error`; `validate` returns `true` exactly
when an `Error` is returned). -/
structure Column where
  id : String
  type : ColType
  parse : JStr → Value
  validate : Option (Value → Row → Bool)

/-- Validator outcome for a cell write: `true` means the column has a
validator and it returned an `Error` for this value/row. -/
def columnRejects (col : Column) (v : Value) (row : Row) : Bool :=
  match col.validate with
  | some f => f v row
  | none => false

/-- The `emptyFor` helper of `clearSelectionWithDelete`. -/
def emptyFor : ColType → Value
  | .number => .undefined
  | .date => .undefined
  | .select => .str ""
  | .color => .str "#000000"
  | .text => .str ""
  | .custom => .str ""

/-- The grid state the clipboard, delete and selection operations read:
the current visible row projection and the ordered visible columns. -/
structure Grid where
  rows : List Row
  cols : List Column

/-- Number of visible rows (`rowCount = visible.length`). -/
def Grid.rowCount (g : Grid) : Nat := g.rows.length

/-- Number of visible columns (`colCount = allCols.length`). -/
def Grid.colCount (g : Grid) : Nat := g.cols.length

/-- Row at a visible index (`visible[r].row`; the code indexes without a
bound check, so theorems carry in-range hypotheses and this default is
never read there). -/
def rowAt (g : Grid) (r : Nat) : Row := (g.rows.get? r).getD ⟨"", []⟩

/-- Column at a visible index (`allCols[c]`). -/
def colAt (g : Grid) (c : Nat) : Column :=
  (g.cols.get? c).getD ⟨"", .text, fun _ => .undefined, none⟩

/-- Value of the cell at visible indices `(r, c)`. -/
def cellValue (g : Grid) (r c : Nat) : Value := (rowAt g r).get (colAt g c).id

/-- An inclusive selection rectangle in visible-index space. -/
structure Rect where
  r0 : Nat
  r1 : Nat
  c0 : Nat
  c1 : Nat
deriving DecidableEq, Repr

/-- The atomic unit of mutation emitted through `onPatch`. -/
structure CellChange where
  rowId : String
  colId : String
  oldValue : Value
  nextValue : Value
deriving DecidableEq, Repr

/-- One undoable unit: the ordered changes of one user operation. -/
structure HistoryAction where
  changes : List CellChange
deriving DecidableEq, Repr

/-- The two-stack undo/redo state of `useUndoRedo` (stack top at the end,
matching JS `push`/`pop`). -/
structure History where
  undoStack : List HistoryAction
  redoStack : List HistoryAction
deriving DecidableEq, Repr

/-- Empty history. -/
def History.empty : History := ⟨[], []⟩

/-- `push(action)`: append to the undo stack, clear the redo stack. -/
def History.push (h : History) (a : HistoryAction) : History :=
  ⟨h.undoStack ++ [a], []⟩

/-- `undo()`: pop the undo stack (no-op returning `null` when empty),
push the action onto the redo stack, and return it. -/
def History.undo (h : History) : Option HistoryAction × History :=
  match h.undoStack.getLast? with
  | none => (none, h)
  | some a => (some a, ⟨h.undoStack.dropLast, h.redoStack ++ [a]⟩)

/-- `redo()`: pop the redo stack (no-op returning `null` when empty),
push the action onto the undo stack, and return it. -/
def History.redo (h : History) : Option HistoryAction × History :=
  match h.redoStack.getLast? with
  | none => (none, h)
  | some a => (some a, ⟨h.undoStack ++ [a], h.redoStack.dropLast⟩)

/-- Patches emitted when the undo/redo caller replays an action forward
(`applyActionForward`): each change as stored. -/
def applyActionForward (a : HistoryAction) : List CellChange :=
  a.changes.map (fun ch => ⟨ch.rowId, ch.colId, ch.oldValue, ch.nextValue⟩)

/-- Patches emitted when the caller replays an action inverted
(`applyActionInverse`): each change with old/next swapped. -/
def applyActionInverse (a : HistoryAction) : List CellChange :=
  a.changes.map (fun ch => ⟨ch.rowId, ch.colId, ch.nextValue, ch.oldValue⟩)

/-- The serialized line of one selected row in `doCopy`: the selected
cells stringified and joined with tabs. -/
def copyLine (g : Grid) (rect : Rect) (r : Nat) : JStr :=
  joinCh '\t' ((List.range' rect.c0 (rect.c1 + 1 - rect.c0)).map
    (fun c => stringifyCell (cellValue g r c)))

/-- The lines `doCopy` builds, one per selected row. -/
def copyLines (g : Grid) (rect : Rect) : List JStr :=
  (List.range' rect.r0 (rect.r1 + 1 - rect.r0)).map (copyLine g rect)

/-- `doCopy`: serialize the selection rectangle to tab/newline-delimited
text. -/
def doCopy (g : Grid) (rect : Rect) : JStr := joinCh '\n' (copyLines g rect)

/-- The loop indices `lo, lo+1, …, hi` of a JS `for (let i = lo; i <= hi; i++)`
loop whose upper bound `hi` is an integer expression (empty when `hi < lo`). -/
def intRange (lo : Nat) (hi : Int) : List Nat :=
  List.range' lo (hi + 1 - lo).toNat

/-- The change `doPaste` produces for the single covered cell `(r, c)`:
`none` when the column's validator rejects the parsed text (`continue`)
or when the parsed value equals the current one, the emitted `CellChange`
otherwise. -/
def pasteCell (g : Grid) (rect : Rect) (data2D : List (List JStr)) (r c : Nat) :
    Option CellChange :=
  let row := rowAt g r
  let col := colAt g c
  let txt := (((data2D.get? (r - rect.r0)).getD []).get? (c - rect.c0)).getD []
  let parsed := col.parse txt
  let old := row.get col.id
  if columnRejects col parsed row then none
  else if old = parsed then none
  else some ⟨row.id, col.id, old, parsed⟩

/-- The row bound of `doPaste`: `min(rect.r0 + data2D.length - 1, rowCount - 1)`. -/
def pasteMaxR (g : Grid) (rect : Rect) (data2D : List (List JStr)) : Int :=
  min ((rect.r0 : Int) + data2D.length - 1) ((g.rowCount : Int) - 1)

/-- The column bound of `doPaste`:
`min(rect.c0 + (data2D[0]?.length ?? 1) - 1, colCount - 1)`. -/
def pasteMaxC (g : Grid) (rect : Rect) (data2D : List (List JStr)) : Int :=
  min ((rect.c0 : Int) + ((data2D.head?.map List.length).getD 1) - 1)
    ((g.colCount : Int) - 1)

/-- The ordered list of `onPatch` emissions of one `doPaste` call. -/
def pasteChanges (g : Grid) (rect : Rect) (data2D : List (List JStr)) :
    List CellChange :=
  ((intRange rect.r0 (pasteMaxR g rect data2D)).map
    (fun r => (intRange rect.c0 (pasteMaxC g rect data2D)).filterMap
      (pasteCell g rect data2D r))).flatten

/-- Observable outcome of a bulk operation: the patches emitted through
`onPatch`, the history afterwards, and whether `onCommit` fired. -/
structure OpResult where
  patches : List CellChange
  history : History
  commitFired : Bool
deriving DecidableEq, Repr

/-- `doPaste`: emit the clipped, validated, actually-changing cell writes,
and—only when at least one change was emitted—push them as one
`HistoryAction` and fire `onCommit`. -/
def doPaste (g : Grid) (rect : Rect) (data2D : List (List JStr)) (h : History) :
    OpResult :=
  let cs := pasteChanges g rect data2D
  ⟨cs, if cs.isEmpty then h else h.push ⟨cs⟩, !cs.isEmpty⟩

/-- The change `clearSelectionWithDelete` produces for the cell `(r, c)`:
`none` when the cell already holds the column's empty value. -/
def deleteCell (g : Grid) (r c : Nat) : Option CellChange :=
  let row := rowAt g r
  let col := colAt g c
  let old := row.get col.id
  let next := emptyFor col.type
  if old = next then none else some ⟨row.id, col.id, old, next⟩

/-- The ordered `onPatch` emissions of one `clearSelectionWithDelete` call
(the loops run over the un-clipped rectangle). -/
def deleteChanges (g : Grid) (rect : Rect) : List CellChange :=
  ((List.range' rect.r0 (rect.r1 + 1 - rect.r0)).map
    (fun r => (List.range' rect.c0 (rect.c1 + 1 - rect.c0)).filterMap
      (deleteCell g r))).flatten

/-- `clearSelectionWithDelete`: like `doPaste`, history push and commit
notification happen only when at least one change was emitted. -/
def clearSelectionWithDelete (g : Grid) (rect : Rect) (h : History) : OpResult :=
  let cs := deleteChanges g rect
  ⟨cs, if cs.isEmpty then h else h.push ⟨cs⟩, !cs.isEmpty⟩

/-- Result of a selection operation: the new anchor, the new rectangle,
and the row/column index sets of the `onSelectionChange` emission. -/
structure SelectionOut where
  anchor : Nat × Nat
  rect : Rect
  selRows : List Nat
  selCols : List Nat
deriving DecidableEq, Repr

/-- The `clamp` helper: `Math.max(lo, Math.min(hi, v))`. -/
def clampJS (v lo hi : Int) : Int := max lo (min hi v)

/-- `setSingle(r, c)`: clamp both coordinates into
`[0, rowCount - 1] × [0, colCount - 1]` (the bounds computed in JS integer
arithmetic, so an empty grid clamps to index 0), set anchor and rectangle
to the single clamped cell, and emit it. -/
def setSingle (rowCount colCount : Nat) (r c : Int) : SelectionOut :=
  let rIdx := (clampJS r 0 ((rowCount : Int) - 1)).toNat
  let cIdx := (clampJS c 0 ((colCount : Int) - 1)).toNat
  ⟨(rIdx, cIdx), ⟨rIdx, rIdx, cIdx, cIdx⟩, [rIdx], [cIdx]⟩

/-- `setRange(r, c)`: with no anchor behave as `setSingle`; otherwise set
the rectangle to the bounding box of the anchor and the clamped `(r, c)`
and emit the full covered index ranges. -/
def setRange (rowCount colCount : Nat) (anchor : Option (Nat × Nat)) (r c : Int) :
    SelectionOut :=
  match anchor with
  | none => setSingle rowCount colCount r c
  | some (ar, ac) =>
    let rIdx := (clampJS r 0 ((rowCount : Int) - 1)).toNat
    let cIdx := (clampJS c 0 ((colCount : Int) - 1)).toNat
    let r0 := min ar rIdx
    let r1 := max ar rIdx
    let c0 := min ac cIdx
    let c1 := max ac cIdx
    ⟨(ar, ac), ⟨r0, r1, c0, c1⟩, List.range' r0 (r1 + 1 - r0),
      List.range' c0 (c1 + 1 - c0)⟩

/-- An open single-cell edit session. -/
structure EditingCell where
  rowId : String
  colId : String
  draft : Value
deriving DecidableEq, Repr

/-- Observable outcome of a commit attempt: patches emitted, history
afterwards, the editing state afterwards, and whether `onCommit` fired. -/
structure CommitResult where
  patches : List CellChange
  history : History
  editing : Option EditingCell
  commitFired : Bool

/-- `commitEdit` of the tree-mode `TableCore` variant: no validation; the
patch is emitted only when the draft differs from the stored value, but a
one-change `HistoryAction` is pushed unconditionally; the session always
closes and `onCommit` always fires (except when the session's row id no
longer resolves, in which case the session just closes). -/
def commitEdit (rows : List Row) (e : EditingCell) (h : History) : CommitResult :=
  match rows.find? (fun r => r.id == e.rowId) with
  | none => ⟨[], h, none, false⟩
  | some row =>
    let old := row.get e.colId
    let ch : CellChange := ⟨e.rowId, e.colId, old, e.draft⟩
    ⟨if old = e.draft then [] else [ch], h.push ⟨[ch]⟩, none, true⟩

/-- `commitSingleEdit` of the flat `TableCore` variant: run the column's
validator against the draft; on rejection abort (no patch, no push, the
session stays open with its draft); otherwise emit and push exactly when
the draft differs, close the session and fire `onCommit`. A session whose
row id no longer resolves is left untouched. The code asserts the column
exists (`columns.find(...)!`), so the missing-column branch is unreachable
under the theorems' hypotheses. -/
def commitSingleEdit (rows : List Row) (cols : List Column) (e : EditingCell)
    (h : History) : CommitResult :=
  match rows.find? (fun r => r.id == e.rowId) with
  | none => ⟨[], h, some e, false⟩
  | some row =>
    match cols.find? (fun c => c.id == e.colId) with
    | none => ⟨[], h, some e, false⟩
    | some col =>
      if columnRejects col e.draft row then ⟨[], h, some e, false⟩
      else
        let old := row.get e.colId
        if old = e.draft then ⟨[], h, none, true⟩
        else ⟨[⟨e.rowId, e.colId, old, e.draft⟩],
          h.push ⟨[⟨e.rowId, e.colId, old, e.draft⟩]⟩, none, true⟩

/-- The parent-of map (`parentOf`), as an association from row id to the
nullable parent id; `parentOf.get(id) ?? null` reads a missing entry as
`null`. -/
abbrev ParentMap := List (String × Option String)

/-- Read of `parentOf.get(rowId) ?? null`. -/
def parentLookup (m : ParentMap) (id : String) : Option String :=
  (m.lookup id).getD none

/-- The value stored in the parent-id column of a reparenting change. -/
def parentValue : Option String → Value
  | none => .null
  | some s => .str s

/-- The id of the parent-id column (`PARENT_COL_ID`). -/
def PARENT_COL_ID : String := "parentId"

/-- `setParent`: emit one parent-id `CellChange` through `onPatch` when the
parent actually changes; nothing is pushed to the history. -/
def setParent (m : ParentMap) (rowId : String) (newParent : Option String) :
    List CellChange :=
  let old := parentLookup m rowId
  if old = newParent then []
  else [⟨rowId, PARENT_COL_ID, parentValue old, parentValue newParent⟩]

/-- A visible-projection entry as `indentRow` inspects it. -/
structure VisRow where
  row : Row
  level : Nat
  hasChildren : Bool
  isSummary : Bool

/-- JS `Set` insertion, on an insertion-ordered list model of the set. -/
def addToSet (s : List String) (x : String) : List String :=
  if x ∈ s then s else s ++ [x]

/-- `indentRow`: find the nearest preceding non-summary visible row, make
it the new parent via `setParent`, and add it to the expansion set (the
candidate id is tested for truthiness, so an empty id aborts). Returns the
emitted patches and the new expansion set. -/
def indentRow (visible : List VisRow) (m : ParentMap) (expanded : List String)
    (rowId : String) (selIdx : Nat) : List CellChange × List String :=
  match ((visible.take selIdx).reverse.find? (fun v => !v.isSummary)).map
      (fun v => v.row.id) with
  | none => ([], expanded)
  | some p =>
    if p = "" then ([], expanded)
    else (setParent m rowId (some p), addToSet expanded p)

/-- `outdentRow`: reparent to the parent's own parent; no-op at root (a
falsy—absent or empty—parent id aborts). -/
def outdentRow (m : ParentMap) (rowId : String) : List CellChange :=
  match parentLookup m rowId with
  | none => []
  | some p =>
    if p = "" then []
    else setParent m rowId (parentLookup m p)

/-- The children map (`childrenOf`): number of children currently observed
for a row id (`childrenOf.get(id)?.length ?? 0`). -/
def childCount (childrenOf : List (String × List String)) (id : String) : Nat :=
  ((childrenOf.lookup id).getD []).length

/-- The expanded-set reconciliation effect: for every id in the row order,
insert it into the expansion set whenever it currently has children and is
not already a member. Runs on every row-order or children-map change. -/
def reconcileExpanded (prev : List String) (rowOrder : List String)
    (childrenOf : List (String × List String)) : List String :=
  rowOrder.foldl
    (fun acc id =>
      if childCount childrenOf id ≠ 0 ∧ id ∉ acc then acc ++ [id] else acc)
    prev

/-- `toggleExpand(id)`: flip membership in the expansion set. -/
def toggleExpand (s : List String) (id : String) : List String :=
  if id ∈ s then s.erase id else s ++ [id]

/-- Modelled from the spec: §6 outbound contract — the host applies an
emitted change by writing `nextValue` into the row whose id matches
(`TableCore` itself never mutates rows; this is the caller's
change-application round trip, whose code is outside `src/core`). -/
def applyPatch (g : Grid) (ch : CellChange) : Grid :=
  ⟨g.rows.map (fun r => if r.id = ch.rowId then r.set ch.colId ch.nextValue else r),
    g.cols⟩

/-- Modelled from the spec: §6 — the host applies a batch of emitted
changes in emission order. -/
def applyPatches (g : Grid) (cs : List CellChange) : Grid :=
  cs.foldl applyPatch g

/-- Re-reading a rectangle's values from the grid. -/
def readRect (g : Grid) (rect : Rect) : List (List Value) :=
  (List.range' rect.r0 (rect.r1 + 1 - rect.r0)).map
    (fun r => (List.range' rect.c0 (rect.c1 + 1 - rect.c0)).map (cellValue g r))

/-! Helper lemmas about the JS split/join model. -/

theorem splitCh_ne_nil (sep : Char) (l : JStr) : splitCh sep l ≠ [] := by
  cases l with
  | nil => simp [splitCh]
  | cons a rest =>
    simp only [splitCh]
    split <;> simp

theorem splitCh_of_not_mem {sep : Char} {l : JStr} (h : sep ∉ l) :
    splitCh sep l = [l] := by
  induction l with
  | nil => rfl
  | cons a rest ih =>
    simp only [List.mem_cons, not_or] at h
    rw [splitCh, if_neg (fun has => h.1 has.symm), ih h.2]
    rfl

theorem splitCh_append_sep {sep : Char} {x : JStr} (y : JStr) (hx : sep ∉ x) :
    splitCh sep (x ++ sep :: y) = x :: splitCh sep y := by
  induction x with
  | nil => simp [splitCh]
  | cons a rest ih =>
    simp only [List.mem_cons, not_or] at hx
    rw [List.cons_append, splitCh, if_neg (fun has => hx.1 has.symm), ih hx.2]
    rfl

theorem splitCh_joinCh {sep : Char} {L : List JStr} (hL : L ≠ [])
    (h : ∀ l ∈ L, sep ∉ l) : splitCh sep (joinCh sep L) = L := by
  induction L with
  | nil => cases hL rfl
  | cons l ls ih =>
    cases ls with
    | nil => simpa [joinCh] using splitCh_of_not_mem (h l (by simp))
    | cons l2 ls2 =>
      rw [joinCh, splitCh_append_sep _ (h l (by simp)),
        ih (by simp) (fun x hx => h x (by simp [hx]))]

theorem joinCh_cons_concat_nil (sep : Char) (l : JStr) (ls : List JStr) :
    joinCh sep (l :: ls ++ [[]]) = joinCh sep (l :: ls) ++ [sep] := by
  induction ls generalizing l with
  | nil => simp [joinCh]
  | cons l2 ls2 ih =>
    have h2 := ih l2
    rw [List.cons_append] at h2
    rw [List.cons_append, List.cons_append, joinCh, h2, joinCh]
    simp

theorem mem_joinCh {sep : Char} {L : List JStr} {c : Char}
    (hc : c ∈ joinCh sep L) : c = sep ∨ ∃ l ∈ L, c ∈ l := by
  induction L with
  | nil => simp [joinCh] at hc
  | cons l ls ih =>
    cases ls with
    | nil =>
      simp only [joinCh] at hc
      exact Or.inr ⟨l, by simp, hc⟩
    | cons l2 ls2 =>
      rw [joinCh] at hc
      simp only [List.mem_append, List.mem_cons] at hc
      rcases hc with h1 | h2 | h3
      · exact Or.inr ⟨l, by simp, h1⟩
      · exact Or.inl h2
      · rcases ih h3 with h | ⟨x, hx, hcx⟩
        · exact Or.inl h
        · exact Or.inr ⟨x, by simp [hx], hcx⟩

theorem dropCR_of_no_cr {text : JStr} (h : '\r' ∉ text) : dropCR text = text := by
  rw [dropCR, List.filter_eq_self]
  intro a ha
  have hne : a ≠ '\r' := fun h2 => h (h2 ▸ ha)
  simp [hne]

theorem dropCR_append (a b : JStr) : dropCR (a ++ b) = dropCR a ++ dropCR b :=
  List.filter_append _ _

theorem no_cr_joinCh {L : List JStr} (h : ∀ l ∈ L, '\r' ∉ l) :
    '\r' ∉ joinCh '\n' L := by
  intro hmem
  rcases mem_joinCh hmem with h1 | ⟨l, hl, hcl⟩
  · exact absurd h1 (by decide)
  · exact h l hl hcl

theorem dropCR_joinSeq {L : List JStr} (h : ∀ l ∈ L, '\r' ∉ l) :
    dropCR (joinSeq ('\r' :: '\n' :: []) L) = joinCh '\n' L := by
  induction L with
  | nil => rfl
  | cons l ls ih =>
    cases ls with
    | nil => exact dropCR_of_no_cr (h l (by simp))
    | cons l2 ls2 =>
      rw [joinSeq, joinCh, dropCR_append, dropCR_append,
        dropCR_of_no_cr (h l (by simp)), ih (fun x hx => h x (by simp [hx]))]
      simp [dropCR]

/-- Core computation of `parseTSV` on a newline-join of newline/CR-free
nonempty lines: the filter keeps them all and the result is the tab-split
of each line. -/
theorem parseTSV_joinCh {L : List JStr} (hL : L ≠ [])
    (hfree : ∀ l ∈ L, '\n' ∉ l ∧ '\r' ∉ l) (hne : ∀ l ∈ L, l ≠ []) :
    parseTSV (joinCh '\n' L) = L.map (splitCh '\t') := by
  rw [parseTSV]
  rw [dropCR_of_no_cr (no_cr_joinCh (fun l hl => (hfree l hl).2))]
  rw [splitCh_joinCh hL (fun l hl => (hfree l hl).1)]
  rw [List.filter_eq_self.mpr]
  intro l hl
  simp [hne l hl]

/-- Computation of `parseTSV` on a newline-join followed by a trailing
newline: the text then ends in `'\n'`, so the filter keeps every line and
the trailing empty line survives as a trailing row. -/
theorem parseTSV_concat_newline {L : List JStr} (hL : L ≠ [])
    (hfree : ∀ l ∈ L, '\n' ∉ l ∧ '\r' ∉ l) :
    parseTSV (joinCh '\n' L ++ ['\n']) = (L ++ [[]]).map (splitCh '\t') := by
  have hjoin : joinCh '\n' L ++ ['\n'] = joinCh '\n' (L ++ [[]]) := by
    cases L with
    | nil => cases hL rfl
    | cons l ls => exact (joinCh_cons_concat_nil '\n' l ls).symm
  have hfree2 : ∀ l ∈ L ++ [[]], '\n' ∉ l := by
    intro l hl
    rcases List.mem_append.mp hl with h | h
    · exact (hfree l h).1
    · simp only [List.mem_singleton] at h
      simp [h]
  have hcr2 : ∀ l ∈ L ++ [[]], '\r' ∉ l := by
    intro l hl
    rcases List.mem_append.mp hl with h | h
    · exact (hfree l h).2
    · simp only [List.mem_singleton] at h
      simp [h]
  simp only [parseTSV]
  rw [List.getLast?_concat]
  rw [hjoin, dropCR_of_no_cr (no_cr_joinCh hcr2)]
  rw [splitCh_joinCh (by simp) hfree2]
  simp

/-- Claim C2, counterexample: deserializing the two-character text
`"a\n"`—one content line followed by a single trailing newline, whose last
line is not "genuinely empty content preceded by content"—produces the
spurious empty trailing row `[""]`, so the matrix is not `[["a"]]` as the
claim requires. -/
theorem c2_parseTSV_counterexample :
    parseTSV ('a' :: '\n' :: []) = [['a'] :: [], [] :: []] ∧
    parseTSV ('a' :: '\n' :: []) ≠ [['a'] :: []] := by
  constructor
  · rfl
  · decide

/-- Claim C2, amended: `parseTSV` splits into rows on newlines and into
columns on tabs, accepting both `\n` and `\r\n` line endings (every CR is
deleted), for any nonempty list of newline/CR-free nonempty lines; however
a trailing newline always produces a spurious empty trailing row, because
a text ending in `'\n'` has every split line kept, including the final
empty one. -/
theorem c2_parseTSV_amended {L : List JStr} (hL : L ≠ [])
    (hfree : ∀ l ∈ L, '\n' ∉ l ∧ '\r' ∉ l) (hne : ∀ l ∈ L, l ≠ []) :
    parseTSV (joinCh '\n' L) = L.map (splitCh '\t') ∧
    parseTSV (joinSeq ('\r' :: '\n' :: []) L) = L.map (splitCh '\t') ∧
    parseTSV (joinCh '\n' L ++ ['\n']) = (L ++ [[]]).map (splitCh '\t') := by
  refine ⟨parseTSV_joinCh hL hfree hne, ?_, parseTSV_concat_newline hL hfree⟩
  simp only [parseTSV]
  rw [dropCR_joinSeq (fun l hl => (hfree l hl).2)]
  rw [splitCh_joinCh hL (fun l hl => (hfree l hl).1)]
  rw [List.filter_eq_self.mpr]
  intro l hl
  simp [hne l hl]

/-- Claim C2, witness: the amended theorem evaluated on the two lines
`"a"`, `"b"`: `"a\nb"` parses to two rows, `"a\r\nb"` parses identically,
and `"a\nb\n"` gains the trailing empty row. -/
theorem c2_parseTSV_witness :
    parseTSV (joinCh '\n' [['a'], ['b']]) = [['a'] :: [], ['b'] :: []] ∧
    parseTSV (joinSeq ('\r' :: '\n' :: []) [['a'], ['b']]) = [['a'] :: [], ['b'] :: []] ∧
    parseTSV (joinCh '\n' [['a'], ['b']] ++ ['\n']) =
      [['a'] :: [], ['b'] :: [], [] :: []] := by
  have h := c2_parseTSV_amended (L := [['a'], ['b']]) (by decide) (by decide) (by decide)
  exact ⟨h.1.trans (by decide), h.2.1.trans (by decide), h.2.2.trans (by decide)⟩

/-- The tab-split of one copied line recovers the stringified cells of the
row, provided no selected cell text of that row contains a tab. -/
theorem splitCh_copyLine {g : Grid} {rect : Rect} {r : Nat}
    (hc0 : rect.c0 ≤ rect.c1)
    (htab : ∀ c ∈ List.range' rect.c0 (rect.c1 + 1 - rect.c0),
      '\t' ∉ stringifyCell (cellValue g r c)) :
    splitCh '\t' (copyLine g rect r) =
      (List.range' rect.c0 (rect.c1 + 1 - rect.c0)).map
        (fun c => stringifyCell (cellValue g r c)) := by
  rw [copyLine]
  apply splitCh_joinCh
  · simp only [ne_eq, List.map_eq_nil_iff]
    intro h0
    have := congrArg List.length h0
    rw [List.length_range'] at this
    simp at this
    omega
  · intro l hl
    rcases List.mem_map.mp hl with ⟨c, hc, rfl⟩
    exact htab c hc

/-- Every line `doCopy` builds is newline- and CR-free when the selected
cell texts are. -/
theorem copyLines_free {g : Grid} {rect : Rect}
    (hfree : ∀ r ∈ List.range' rect.r0 (rect.r1 + 1 - rect.r0),
      ∀ c ∈ List.range' rect.c0 (rect.c1 + 1 - rect.c0),
        '\n' ∉ stringifyCell (cellValue g r c) ∧ '\r' ∉ stringifyCell (cellValue g r c)) :
    ∀ l ∈ copyLines g rect, '\n' ∉ l ∧ '\r' ∉ l := by
  intro l hl
  rw [copyLines] at hl
  rcases List.mem_map.mp hl with ⟨r, hr, rfl⟩
  constructor
  · intro hmem
    rw [copyLine] at hmem
    rcases mem_joinCh hmem with h1 | ⟨x, hx, hcx⟩
    · exact absurd h1 (by decide)
    · rcases List.mem_map.mp hx with ⟨c, hc, rfl⟩
      exact (hfree r hr c hc).1 hcx
  · intro hmem
    rw [copyLine] at hmem
    rcases mem_joinCh hmem with h1 | ⟨x, hx, hcx⟩
    · exact absurd h1 (by decide)
    · rcases List.mem_map.mp hx with ⟨c, hc, rfl⟩
      exact (hfree r hr c hc).2 hcx

/-- An empty paste matrix yields no changes: the clipped upper row bound
is `rect.r0 - 1`, so the paste loop never runs. -/
theorem pasteChanges_nil (g : Grid) (rect : Rect) : pasteChanges g rect [] = [] := by
  have h0 : intRange rect.r0 (pasteMaxR g rect []) = [] := by
    have h1 : (pasteMaxR g rect [] + 1 - rect.r0).toNat = 0 := by
      rw [pasteMaxR]
      simp only [List.length_nil]
      omega
    rw [intRange, h1, List.range'_zero]
  rw [pasteChanges, h0]
  rfl

/-- Pasting back the tab-split of the very lines `doCopy` produced writes
nothing: every covered cell parses back to its current value, so the
`old !== parsed` guard skips it. -/
theorem pasteChanges_self {g : Grid} {rect : Rect}
    (hr1 : rect.r1 < g.rowCount) (hr0 : rect.r0 ≤ rect.r1)
    (hc1 : rect.c1 < g.colCount) (hc0 : rect.c0 ≤ rect.c1)
    (hparse : ∀ r ∈ List.range' rect.r0 (rect.r1 + 1 - rect.r0),
      ∀ c ∈ List.range' rect.c0 (rect.c1 + 1 - rect.c0),
        (colAt g c).parse (stringifyCell (cellValue g r c)) = cellValue g r c)
    (htab : ∀ r ∈ List.range' rect.r0 (rect.r1 + 1 - rect.r0),
      ∀ c ∈ List.range' rect.c0 (rect.c1 + 1 - rect.c0),
        '\t' ∉ stringifyCell (cellValue g r c)) :
    pasteChanges g rect ((copyLines g rect).map (splitCh '\t')) = [] := by
  set data2D := (copyLines g rect).map (splitCh '\t') with hdata
  have hlen : data2D.length = rect.r1 + 1 - rect.r0 := by
    simp [hdata, copyLines]
  have hmaxR : pasteMaxR g rect data2D = rect.r1 := by
    rw [pasteMaxR, hlen]
    have hrc : rect.r1 < g.rowCount := hr1
    omega
  have hrange : List.range' rect.r0 (rect.r1 + 1 - rect.r0)
      = rect.r0 :: List.range' (rect.r0 + 1) (rect.r1 - rect.r0) := by
    have hn : rect.r1 + 1 - rect.r0 = (rect.r1 - rect.r0) + 1 := by omega
    rw [hn, List.range'_succ]
  have hhead : data2D.head? = some (splitCh '\t' (copyLine g rect rect.r0)) := by
    rw [hdata, copyLines, hrange]
    rfl
  have hN : (data2D.head?.map List.length).getD 1 = rect.c1 + 1 - rect.c0 := by
    rw [hhead]
    rw [show Option.map List.length (some (splitCh '\t' (copyLine g rect rect.r0)))
      = some (splitCh '\t' (copyLine g rect rect.r0)).length from rfl]
    rw [splitCh_copyLine hc0 (htab rect.r0 (by rw [hrange]; simp))]
    simp [List.length_range']
  have hmaxC : pasteMaxC g rect data2D = rect.c1 := by
    rw [pasteMaxC, hN]
    have hcc : rect.c1 < g.colCount := hc1
    omega
  have hirR : intRange rect.r0 (pasteMaxR g rect data2D)
      = List.range' rect.r0 (rect.r1 + 1 - rect.r0) := by
    rw [hmaxR, intRange]
    congr 1
    omega
  have hirC : intRange rect.c0 (pasteMaxC g rect data2D)
      = List.range' rect.c0 (rect.c1 + 1 - rect.c0) := by
    rw [hmaxC, intRange]
    congr 1
    omega
  rw [pasteChanges, hirR, hirC, List.flatten_eq_nil_iff]
  intro l hl
  rcases List.mem_map.mp hl with ⟨r, hr, rfl⟩
  rw [List.filterMap_eq_nil_iff]
  intro c hc
  have hmemr := List.mem_range'_1.mp hr
  have hmemc := List.mem_range'_1.mp hc
  have hget : (data2D[r - rect.r0]?.getD [])[c - rect.c0]?.getD []
      = stringifyCell (cellValue g r c) := by
    have h2 : rect.r0 + 1 * (r - rect.r0) = r := by omega
    have h3 : rect.c0 + 1 * (c - rect.c0) = c := by omega
    rw [hdata, List.getElem?_map, copyLines, List.getElem?_map,
      List.getElem?_range' _ _ (show r - rect.r0 < rect.r1 + 1 - rect.r0 by omega)]
    simp only [Option.map_some', Option.getD_some, h2]
    rw [splitCh_copyLine hc0 (htab r hr)]
    rw [List.getElem?_map,
      List.getElem?_range' _ _ (show c - rect.c0 < rect.c1 + 1 - rect.c0 by omega)]
    simp only [Option.map_some', Option.getD_some, h3]
  simp only [pasteCell, List.get?_eq_getElem?, hget, hparse r hr c hc]
  by_cases hrej : columnRejects (colAt g c) (cellValue g r c) (rowAt g r) = true
  · rw [if_pos hrej]
  · rw [if_neg (by simp [hrej]),
      if_pos (show Row.get (rowAt g r) (colAt g c).id = cellValue g r c from rfl)]

/-- Claim C1, amended: copy → deserialize → paste at the same anchor emits
no change at all and re-reading the rectangle reproduces the original
matrix, provided (i) each selected cell's parser inverts its
stringification, (ii) no selected cell's text contains a tab, newline or
carriage return, and (iii) every serialized line before the last is
nonempty, or the last line is itself empty. (Without (iii) an interior
all-empty line is dropped by `parseTSV`'s filter and the later rows shift
up, see the counterexample.) -/
theorem c1_copy_paste_roundtrip_amended (g : Grid) (rect : Rect) (h : History)
    (hr1 : rect.r1 < g.rowCount) (hr0 : rect.r0 ≤ rect.r1)
    (hc1 : rect.c1 < g.colCount) (hc0 : rect.c0 ≤ rect.c1)
    (hparse : ∀ r ∈ List.range' rect.r0 (rect.r1 + 1 - rect.r0),
      ∀ c ∈ List.range' rect.c0 (rect.c1 + 1 - rect.c0),
        (colAt g c).parse (stringifyCell (cellValue g r c)) = cellValue g r c)
    (hchars : ∀ r ∈ List.range' rect.r0 (rect.r1 + 1 - rect.r0),
      ∀ c ∈ List.range' rect.c0 (rect.c1 + 1 - rect.c0),
        '\t' ∉ stringifyCell (cellValue g r c) ∧
        '\n' ∉ stringifyCell (cellValue g r c) ∧
        '\r' ∉ stringifyCell (cellValue g r c))
    (hlines : (∀ l ∈ copyLines g rect, l ≠ []) ∨
      (copyLines g rect).getLast? = some []) :
    doPaste g rect (parseTSV (doCopy g rect)) h = ⟨[], h, false⟩ ∧
    readRect (applyPatches g
      (doPaste g rect (parseTSV (doCopy g rect)) h).patches) rect
      = readRect g rect := by
  have hLne : copyLines g rect ≠ [] := by
    intro h0
    have := congrArg List.length h0
    simp [copyLines, List.length_range'] at this
    omega
  have hfreeL : ∀ l ∈ copyLines g rect, '\n' ∉ l ∧ '\r' ∉ l :=
    copyLines_free (fun r hr c hc => ⟨(hchars r hr c hc).2.1, (hchars r hr c hc).2.2⟩)
  have htab : ∀ r ∈ List.range' rect.r0 (rect.r1 + 1 - rect.r0),
      ∀ c ∈ List.range' rect.c0 (rect.c1 + 1 - rect.c0),
        '\t' ∉ stringifyCell (cellValue g r c) :=
    fun r hr c hc => (hchars r hr c hc).1
  have hcs : pasteChanges g rect (parseTSV (doCopy g rect)) = [] := by
    rcases hlines with hne | hlast
    · rw [doCopy, parseTSV_joinCh hLne hfreeL hne]
      exact pasteChanges_self hr1 hr0 hc1 hc0 hparse htab
    · have hglast : (copyLines g rect).getLast hLne = [] := by
        have hgl := List.getLast?_eq_getLast (copyLines g rect) hLne
        exact Option.some.inj (hgl.symm.trans hlast)
      have hdec : copyLines g rect = (copyLines g rect).dropLast ++ [[]] := by
        conv_lhs => rw [← List.dropLast_append_getLast hLne]
        rw [hglast]
      cases hdl : (copyLines g rect).dropLast with
      | nil =>
        have hL : copyLines g rect = [[]] := by rw [hdec, hdl]; rfl
        rw [doCopy, hL, show parseTSV (joinCh '\n' ([] :: [])) = [] from rfl]
        exact pasteChanges_nil g rect
      | cons l ls =>
        have hjoin : joinCh '\n' (copyLines g rect)
            = joinCh '\n' (l :: ls) ++ ['\n'] := by
          conv_lhs => rw [hdec, hdl]
          exact joinCh_cons_concat_nil '\n' l ls
        have hfree2 : ∀ x ∈ l :: ls, '\n' ∉ x ∧ '\r' ∉ x := by
          intro x hx
          apply hfreeL
          rw [hdec, hdl]
          exact List.mem_append.mpr (Or.inl hx)
        rw [doCopy, hjoin, parseTSV_concat_newline (by simp) hfree2,
          show (l :: ls) ++ [[]] = (l :: ls) ++ [[]] from rfl]
        rw [show ((l :: ls) ++ [[]] : List JStr) = copyLines g rect by rw [hdec, hdl]]
        exact pasteChanges_self hr1 hr0 hc1 hc0 hparse htab
  refine ⟨?_, ?_⟩
  · simp [doPaste, hcs]
  · simp [doPaste, hcs, applyPatches]

/-- A text column whose parser is the identity on strings. -/
def exTextCol : Column := ⟨"v", .text, fun t => .str (String.mk t), none⟩

/-- Three visible rows holding `"a"`, `""`, `"b"` in the text column. -/
def exGridC1 : Grid :=
  ⟨[⟨"r0", [("v", .str "a")]⟩, ⟨"r1", [("v", .str "")]⟩, ⟨"r2", [("v", .str "b")]⟩],
    [exTextCol]⟩

/-- The full-grid selection rectangle over `exGridC1`. -/
def exRectC1 : Rect := ⟨0, 2, 0, 0⟩

/-- Claim C1, counterexample: copying the column `"a"`, `""`, `"b"`
serializes to `"a\n\nb"`; `parseTSV` drops the interior empty line (the
text does not end in a newline), the paste writes `"b"` into the middle
row, and re-reading the rectangle yields `"a"`, `"b"`, `"b"` instead of
the original matrix. -/
theorem c1_copy_paste_roundtrip_counterexample :
    readRect (applyPatches exGridC1
      (doPaste exGridC1 exRectC1 (parseTSV (doCopy exGridC1 exRectC1))
        History.empty).patches) exRectC1
      = [[Value.str "a"], [Value.str "b"], [Value.str "b"]] ∧
    readRect exGridC1 exRectC1
      = [[Value.str "a"], [Value.str ""], [Value.str "b"]] ∧
    readRect (applyPatches exGridC1
      (doPaste exGridC1 exRectC1 (parseTSV (doCopy exGridC1 exRectC1))
        History.empty).patches) exRectC1
      ≠ readRect exGridC1 exRectC1 := by
  refine ⟨by decide, by decide, by decide⟩

/-- Two visible rows holding `"a"`, `"b"` in the text column. -/
def exGridC1w : Grid :=
  ⟨[⟨"r0", [("v", .str "a")]⟩, ⟨"r1", [("v", .str "b")]⟩], [exTextCol]⟩

/-- The full-grid selection rectangle over `exGridC1w`. -/
def exRectC1w : Rect := ⟨0, 1, 0, 0⟩

/-- Claim C1, witness: the amended round-trip theorem applied to the
two-row grid `"a"`, `"b"`, whose serialized lines are all nonempty. -/
theorem c1_copy_paste_roundtrip_witness :
    doPaste exGridC1w exRectC1w (parseTSV (doCopy exGridC1w exRectC1w))
      History.empty = ⟨[], History.empty, false⟩ ∧
    readRect (applyPatches exGridC1w
      (doPaste exGridC1w exRectC1w (parseTSV (doCopy exGridC1w exRectC1w))
        History.empty).patches) exRectC1w
      = readRect exGridC1w exRectC1w :=
  c1_copy_paste_roundtrip_amended exGridC1w exRectC1w History.empty
    (by decide) (by decide) (by decide) (by decide)
    (by decide) (by decide) (Or.inl (by decide))

/-- Claim C3: every change one paste emits comes from a covered cell
`(r, c)` inside the grid, with the loop bounds clipped to
`min(r0 + M - 1, rowCount - 1)` and `min(c0 + N - 1, colCount - 1)`
(`pasteMaxR` / `pasteMaxC`); conversely every covered cell write that
survives the validator and differs from the current value appears in the
emissions (failing cells are skipped, never abort the paste); and the
emitted changes are pushed as exactly one `HistoryAction`, pushed only
when there is at least one change. -/
theorem c3_paste_clipping_and_history (g : Grid) (rect : Rect)
    (data2D : List (List JStr)) (h : History) :
    (∀ ch ∈ (doPaste g rect data2D h).patches,
      ∃ r c, r < g.rowCount ∧ c < g.colCount ∧
        r ∈ intRange rect.r0 (pasteMaxR g rect data2D) ∧
        c ∈ intRange rect.c0 (pasteMaxC g rect data2D) ∧
        pasteCell g rect data2D r c = some ch) ∧
    (∀ ch, (∃ r ∈ intRange rect.r0 (pasteMaxR g rect data2D),
        ∃ c ∈ intRange rect.c0 (pasteMaxC g rect data2D),
          pasteCell g rect data2D r c = some ch) →
      ch ∈ (doPaste g rect data2D h).patches) ∧
    ((doPaste g rect data2D h).patches = [] →
      (doPaste g rect data2D h).history = h) ∧
    ((doPaste g rect data2D h).patches ≠ [] →
      (doPaste g rect data2D h).history
        = h.push ⟨(doPaste g rect data2D h).patches⟩) := by
  have hpatch : (doPaste g rect data2D h).patches = pasteChanges g rect data2D := rfl
  have hboundR : ∀ r ∈ intRange rect.r0 (pasteMaxR g rect data2D), r < g.rowCount := by
    intro r hr
    have hm := List.mem_range'_1.mp hr
    have hmr : pasteMaxR g rect data2D ≤ (g.rowCount : Int) - 1 := min_le_right _ _
    rcases hm with ⟨h1, h2⟩
    omega
  have hboundC : ∀ c ∈ intRange rect.c0 (pasteMaxC g rect data2D), c < g.colCount := by
    intro c hc
    have hm := List.mem_range'_1.mp hc
    have hmc : pasteMaxC g rect data2D ≤ (g.colCount : Int) - 1 := min_le_right _ _
    rcases hm with ⟨h1, h2⟩
    omega
  have hmem : ∀ ch, ch ∈ pasteChanges g rect data2D ↔
      ∃ r ∈ intRange rect.r0 (pasteMaxR g rect data2D),
        ∃ c ∈ intRange rect.c0 (pasteMaxC g rect data2D),
          pasteCell g rect data2D r c = some ch := by
    intro ch
    rw [pasteChanges]
    constructor
    · intro hch
      rcases List.mem_flatten.mp hch with ⟨l, hl, hcl⟩
      rcases List.mem_map.mp hl with ⟨r, hr, rfl⟩
      rcases List.mem_filterMap.mp hcl with ⟨c, hc, hcell⟩
      exact ⟨r, hr, c, hc, hcell⟩
    · rintro ⟨r, hr, c, hc, hcell⟩
      exact List.mem_flatten.mpr
        ⟨_, List.mem_map_of_mem _ hr, List.mem_filterMap.mpr ⟨c, hc, hcell⟩⟩
  refine ⟨?_, ?_, ?_, ?_⟩
  · intro ch hch
    rw [hpatch] at hch
    rcases (hmem ch).mp hch with ⟨r, hr, c, hc, hcell⟩
    exact ⟨r, c, hboundR r hr, hboundC c hc, hr, hc, hcell⟩
  · intro ch hex
    rw [hpatch]
    rcases hex with ⟨r, hr, c, hc, hcell⟩
    exact (hmem ch).mpr ⟨r, hr, c, hc, hcell⟩
  · intro h0
    rw [hpatch] at h0
    simp [doPaste, h0]
  · intro h0
    rw [hpatch] at h0
    simp only [doPaste]
    rw [if_neg (by simpa [List.isEmpty_iff] using h0)]

/-- One-row grid used by the paste-clipping witness. -/
def exGridC3 : Grid := ⟨[⟨"p0", [("v", .str "a")]⟩], [exTextCol]⟩

/-- Claim C3, witness: pasting a two-row matrix into a one-row grid at its
single cell pushes the (clipped, nonempty) change list as exactly one
history action. -/
theorem c3_paste_witness :
    (doPaste exGridC3 ⟨0, 0, 0, 0⟩ [[['x']], [['y']]] History.empty).history
      = History.empty.push
          ⟨(doPaste exGridC3 ⟨0, 0, 0, 0⟩ [[['x']], [['y']]] History.empty).patches⟩ :=
  (c3_paste_clipping_and_history exGridC3 ⟨0, 0, 0, 0⟩ [[['x']], [['y']]]
    History.empty).2.2.2 (by decide)

/-- Claim C4, amended: on a grid with at least one visible row and one
column, and with any anchor lying inside the grid, both selection
operations produce a rectangle clamped inside
`[0, rowCount-1] × [0, colCount-1]`, never rejecting out-of-range input;
`setRange` without an anchor is exactly `setSingle`. (On a grid with zero
rows or zero columns the clamp still yields index 0, which lies outside
the empty grid — see the counterexample.) -/
theorem c4_selection_clamped_amended (rowCount colCount : Nat)
    (anchor : Option (Nat × Nat)) (r c : Int)
    (hrow : 1 ≤ rowCount) (hcol : 1 ≤ colCount)
    (hanchor : ∀ p, anchor = some p → p.1 < rowCount ∧ p.2 < colCount) :
    ((setSingle rowCount colCount r c).rect.r0
        ≤ (setSingle rowCount colCount r c).rect.r1 ∧
      (setSingle rowCount colCount r c).rect.r1 < rowCount ∧
      (setSingle rowCount colCount r c).rect.c0
        ≤ (setSingle rowCount colCount r c).rect.c1 ∧
      (setSingle rowCount colCount r c).rect.c1 < colCount) ∧
    ((setRange rowCount colCount anchor r c).rect.r0
        ≤ (setRange rowCount colCount anchor r c).rect.r1 ∧
      (setRange rowCount colCount anchor r c).rect.r1 < rowCount ∧
      (setRange rowCount colCount anchor r c).rect.c0
        ≤ (setRange rowCount colCount anchor r c).rect.c1 ∧
      (setRange rowCount colCount anchor r c).rect.c1 < colCount) ∧
    setRange rowCount colCount none r c = setSingle rowCount colCount r c := by
  have hs : ∀ (v : Int) (n : Nat), 1 ≤ n → (clampJS v 0 ((n : Int) - 1)).toNat < n := by
    intro v n hn
    rw [clampJS]
    omega
  have hsingle : (setSingle rowCount colCount r c).rect.r0
        ≤ (setSingle rowCount colCount r c).rect.r1 ∧
      (setSingle rowCount colCount r c).rect.r1 < rowCount ∧
      (setSingle rowCount colCount r c).rect.c0
        ≤ (setSingle rowCount colCount r c).rect.c1 ∧
      (setSingle rowCount colCount r c).rect.c1 < colCount := by
    simp only [setSingle]
    exact ⟨le_refl _, hs r _ hrow, le_refl _, hs c _ hcol⟩
  refine ⟨hsingle, ?_, rfl⟩
  cases anchor with
  | none => exact hsingle
  | some p =>
    obtain ⟨ar, ac⟩ := p
    have hp := hanchor (ar, ac) rfl
    have h1 := hs r rowCount hrow
    have h2 := hs c colCount hcol
    simp only [setRange]
    refine ⟨?_, ?_, ?_, ?_⟩ <;> omega

/-- Claim C4, counterexample: with zero visible rows (and one column),
`setSingle(5, 0)` clamps to the cell `(0, 0)` and keeps a non-null
selection rectangle, but index 0 is not inside `[0, rowCount-1]` when
`rowCount = 0` — the selection references a row that does not exist. -/
theorem c4_selection_counterexample :
    setSingle 0 1 5 0 = ⟨(0, 0), ⟨0, 0, 0, 0⟩, [0], [0]⟩ ∧
    ¬ ((setSingle 0 1 5 0).rect.r1 < 0) := by
  exact ⟨by decide, by decide⟩

/-- Claim C4, witness: the amended theorem on a 3×2 grid with anchor
`(1, 1)` and the out-of-range cursor `(-5, 7)`. -/
theorem c4_selection_witness :
    (setRange 3 2 (some (1, 1)) (-5) 7).rect.r1 < 3 ∧
    (setRange 3 2 (some (1, 1)) (-5) 7).rect.c1 < 2 := by
  have h := c4_selection_clamped_amended 3 2 (some (1, 1)) (-5) 7 (by decide) (by decide)
    (by
      intro p hp
      injection hp with h2
      subst h2
      exact ⟨by decide, by decide⟩)
  exact ⟨h.2.1.2.1, h.2.1.2.2.2⟩

/-- Claim C5: `push` appends to the undo stack and clears the redo stack;
`undo` on an empty undo stack is a no-op returning nothing; `undo`
immediately after `push A` returns `A` (whose inverse the caller replays)
and moves it to the redo stack, and the following `redo` returns `A`
again, restoring both stacks to their post-push state, with the caller's
forward replay emitting exactly the `CellChange`s of `A` in order. -/
theorem c5_undo_redo_roundtrip (h : History) (A : HistoryAction) :
    (h.push A).undoStack = h.undoStack ++ [A] ∧
    (h.push A).redoStack = [] ∧
    (h.undoStack = [] → h.undo = (none, h)) ∧
    (h.push A).undo = (some A, ⟨h.undoStack, [A]⟩) ∧
    History.redo ⟨h.undoStack, [A]⟩ = (some A, h.push A) ∧
    applyActionForward A = A.changes := by
  refine ⟨rfl, rfl, ?_, ?_, ?_, ?_⟩
  · intro h0
    simp [History.undo, h0]
  · simp [History.undo, History.push, List.getLast?_concat, List.dropLast_concat]
  · simp [History.redo, History.push]
  · exact List.map_id' A.changes

/-- Claim C5, witness: the round trip on the empty history and a concrete
one-change action. -/
theorem c5_undo_redo_witness :
    History.undo History.empty = (none, History.empty) ∧
    applyActionForward ⟨[⟨"r", "v", Value.str "a", Value.str "b"⟩]⟩
      = [⟨"r", "v", Value.str "a", Value.str "b"⟩] := by
  have h := c5_undo_redo_roundtrip History.empty
    ⟨[⟨"r", "v", Value.str "a", Value.str "b"⟩]⟩
  exact ⟨h.2.2.1 rfl, h.2.2.2.2.2⟩

/-- Claim C6, amended: for a session whose row resolves, a successful
commit emits a single `CellChange` exactly when the draft differs from
the stored value, and in all such cases the session closes to Idle and
the commit notification fires; `commitSingleEdit` (flat variant) also
pushes a one-change `HistoryAction` exactly when the draft differs, but
`commitEdit` (tree variant) pushes a one-change `HistoryAction`
unconditionally — even when the draft equals the stored value and no
change was emitted. -/
theorem c6_commit_amended (rows : List Row) (cols : List Column)
    (e : EditingCell) (h : History) (row : Row) (col : Column)
    (hrow : rows.find? (fun r => r.id == e.rowId) = some row)
    (hcol : cols.find? (fun c => c.id == e.colId) = some col)
    (hok : columnRejects col e.draft row = false) :
    (commitSingleEdit rows cols e h).patches
        = (if row.get e.colId = e.draft then []
           else [⟨e.rowId, e.colId, row.get e.colId, e.draft⟩]) ∧
    (commitSingleEdit rows cols e h).history
        = (if row.get e.colId = e.draft then h
           else h.push ⟨[⟨e.rowId, e.colId, row.get e.colId, e.draft⟩]⟩) ∧
    (commitSingleEdit rows cols e h).editing = none ∧
    (commitSingleEdit rows cols e h).commitFired = true ∧
    (commitEdit rows e h).patches
        = (if row.get e.colId = e.draft then []
           else [⟨e.rowId, e.colId, row.get e.colId, e.draft⟩]) ∧
    (commitEdit rows e h).history
        = h.push ⟨[⟨e.rowId, e.colId, row.get e.colId, e.draft⟩]⟩ ∧
    (commitEdit rows e h).editing = none ∧
    (commitEdit rows e h).commitFired = true := by
  by_cases hEq : row.get e.colId = e.draft
  · simp [commitSingleEdit, commitEdit, hrow, hcol, hok, hEq]
  · simp [commitSingleEdit, commitEdit, hrow, hcol, hok, hEq]

/-- A row holding the string `"x"` in column `"v"`. -/
def exRowC6 : Row := ⟨"r", [("v", .str "x")]⟩

/-- Claim C6, counterexample: committing a session whose draft equals the
stored value (`"x"` over `"x"`) through the tree-variant `commitEdit`
emits no `CellChange`, yet a one-change `HistoryAction` is pushed anyway —
refuting "pushes a one-change HistoryAction if and only if the draft
differs from the stored value". -/
theorem c6_commit_counterexample :
    (commitEdit [exRowC6] ⟨"r", "v", Value.str "x"⟩ History.empty).patches = [] ∧
    (commitEdit [exRowC6] ⟨"r", "v", Value.str "x"⟩ History.empty).history
      = History.empty.push ⟨[⟨"r", "v", Value.str "x", Value.str "x"⟩]⟩ ∧
    (commitEdit [exRowC6] ⟨"r", "v", Value.str "x"⟩ History.empty).history
      ≠ History.empty := by
  refine ⟨by decide, by decide, by decide⟩

/-- Claim C6, witness: the amended theorem on a differing commit
(`"y"` over `"x"`) through the flat-variant `commitSingleEdit`. -/
theorem c6_commit_witness :
    (commitSingleEdit [exRowC6] [exTextCol] ⟨"r", "v", Value.str "y"⟩
      History.empty).patches = [⟨"r", "v", Value.str "x", Value.str "y"⟩] ∧
    (commitSingleEdit [exRowC6] [exTextCol] ⟨"r", "v", Value.str "y"⟩
      History.empty).editing = none := by
  have h := c6_commit_amended [exRowC6] [exTextCol] ⟨"r", "v", Value.str "y"⟩
    History.empty exRowC6 exTextCol (by decide) rfl (by decide)
  exact ⟨h.1.trans (by decide), h.2.2.1⟩

/-- Claim C7, amended: the flat-variant `commitSingleEdit` runs the
column's validator and, on rejection, aborts the commit — no patch, no
history push, the session stays open with its draft retained. The
tree-variant `commitEdit` never consults any validator: even when the
session's column carries a rejecting validator, it emits the change
whenever the draft differs, pushes, closes the session, and fires the
commit notification. -/
theorem c7_commit_validation_amended (rows : List Row) (cols : List Column)
    (e : EditingCell) (h : History) (row : Row) (col : Column)
    (hrow : rows.find? (fun r => r.id == e.rowId) = some row)
    (hcol : cols.find? (fun c => c.id == e.colId) = some col)
    (hrej : columnRejects col e.draft row = true) :
    commitSingleEdit rows cols e h = ⟨[], h, some e, false⟩ ∧
    (commitEdit rows e h).patches
        = (if row.get e.colId = e.draft then []
           else [⟨e.rowId, e.colId, row.get e.colId, e.draft⟩]) ∧
    (commitEdit rows e h).history
        = h.push ⟨[⟨e.rowId, e.colId, row.get e.colId, e.draft⟩]⟩ ∧
    (commitEdit rows e h).editing = none ∧
    (commitEdit rows e h).commitFired = true := by
  by_cases hEq : row.get e.colId = e.draft
  · simp [commitSingleEdit, commitEdit, hrow, hcol, hrej, hEq]
  · simp [commitSingleEdit, commitEdit, hrow, hcol, hrej, hEq]

/-- A column whose validator rejects every value. -/
def exRejCol : Column :=
  ⟨"v", .text, fun t => .str (String.mk t), some (fun _ _ => true)⟩

/-- Claim C7, counterexample: the session's column `exRejCol` rejects the
draft `"y"`, yet the tree-variant `commitEdit` (which never calls the
validator) emits the change and closes the session instead of aborting
with the session open. -/
theorem c7_commit_validation_counterexample :
    columnRejects exRejCol (Value.str "y") exRowC6 = true ∧
    (commitEdit [exRowC6] ⟨"r", "v", Value.str "y"⟩ History.empty).patches
      = [⟨"r", "v", Value.str "x", Value.str "y"⟩] ∧
    (commitEdit [exRowC6] ⟨"r", "v", Value.str "y"⟩ History.empty).editing
      = none := by
  refine ⟨rfl, by decide, by decide⟩

/-- Claim C7, witness: the amended theorem on the rejecting column — the
flat-variant `commitSingleEdit` aborts, keeping the session open with the
draft retained and pushing nothing. -/
theorem c7_commit_validation_witness :
    commitSingleEdit [exRowC6] [exRejCol] ⟨"r", "v", Value.str "y"⟩ History.empty
      = ⟨[], History.empty, some ⟨"r", "v", Value.str "y"⟩, false⟩ :=
  (c7_commit_validation_amended [exRowC6] [exRejCol] ⟨"r", "v", Value.str "y"⟩
    History.empty exRowC6 exRejCol (by decide) rfl rfl).1

/-- Claim C8, amended: `indentRow` and `outdentRow` express reparenting
through the same `onPatch` contract as any other cell edit — they emit at
most one `CellChange`, always on the parent-id column of the reparented
row, and exactly when the parent actually changes — and reparenting is not
a distinct history action type; however the patches are emitted directly,
with no `HistoryAction` ever pushed, so indent/outdent do not participate
in undo/redo at all (the operations take no history and push nothing). -/
theorem c8_reparent_amended (visible : List VisRow) (m : ParentMap)
    (expanded : List String) (rowId : String) (selIdx : Nat) :
    ((indentRow visible m expanded rowId selIdx).1.length ≤ 1 ∧
      ∀ ch ∈ (indentRow visible m expanded rowId selIdx).1,
        ch.rowId = rowId ∧ ch.colId = PARENT_COL_ID) ∧
    ((outdentRow m rowId).length ≤ 1 ∧
      ∀ ch ∈ outdentRow m rowId, ch.rowId = rowId ∧ ch.colId = PARENT_COL_ID) ∧
    (∀ p, setParent m rowId p = [] ↔ parentLookup m rowId = p) ∧
    (∀ p, parentLookup m rowId ≠ p →
      setParent m rowId p
        = [⟨rowId, PARENT_COL_ID, parentValue (parentLookup m rowId),
            parentValue p⟩]) ∧
    (∀ p, ((visible.take selIdx).reverse.find? (fun v => !v.isSummary)).map
        (fun v => v.row.id) = some p → p ≠ "" →
      (indentRow visible m expanded rowId selIdx).1 = setParent m rowId (some p)) ∧
    (∀ p, parentLookup m rowId = some p → p ≠ "" →
      outdentRow m rowId = setParent m rowId (parentLookup m p)) := by
  have hset : ∀ p, (setParent m rowId p).length ≤ 1 ∧
      ∀ ch ∈ setParent m rowId p, ch.rowId = rowId ∧ ch.colId = PARENT_COL_ID := by
    intro p
    rw [setParent]
    split
    · simp
    · simp
  refine ⟨?_, ?_, ?_, ?_, ?_, ?_⟩
  · cases hf : ((visible.take selIdx).reverse.find? (fun v => !v.isSummary)).map
        (fun v => v.row.id) with
    | none => simp [indentRow, hf]
    | some p =>
      by_cases hp : p = ""
      · simp [indentRow, hf, hp]
      · simp only [indentRow, hf]
        rw [if_neg hp]
        exact hset (some p)
  · cases hf : parentLookup m rowId with
    | none => simp [outdentRow, hf]
    | some p =>
      by_cases hp : p = ""
      · simp [outdentRow, hf, hp]
      · simp only [outdentRow, hf]
        rw [if_neg hp]
        exact hset (parentLookup m p)
  · intro p
    by_cases h : parentLookup m rowId = p
    · rw [setParent, if_pos h]
      simp [h]
    · rw [setParent, if_neg h]
      simp [h]
  · intro p hne
    rw [setParent, if_neg hne]
  · intro p hp hpne
    simp only [indentRow, hp]
    rw [if_neg hpne]
  · intro p hp hpne
    simp only [outdentRow, hp]
    rw [if_neg hpne]

/-- Two visible root rows, `"p"` before `"a"`. -/
def visC8 : List VisRow :=
  [⟨⟨"p", []⟩, 0, false, false⟩, ⟨⟨"a", []⟩, 0, false, false⟩]

/-- Parent map in which both rows are roots. -/
def pmC8 : ParentMap := [("a", none), ("p", none)]

/-- Claim C8, counterexample: indenting row `"a"` under `"p"` emits the
parent-id `CellChange`, but nothing is pushed to the (empty) history, so
the immediately following undo finds nothing to revert — the indent does
not participate in undo/redo the way a cell edit (whose commit pushes a
one-change action) does. -/
theorem c8_reparent_counterexample :
    (indentRow visC8 pmC8 [] "a" 1).1
      = [⟨"a", PARENT_COL_ID, Value.null, Value.str "p"⟩] ∧
    (History.undo History.empty).1 = none := by
  refine ⟨by decide, rfl⟩

/-- Claim C8, witness: the amended theorem instantiated on the concrete
indent of `"a"` under `"p"`: the indent routes its emission through
`setParent`, and since the current parent (`null`) differs from `"p"`,
`setParent` emits exactly the one parent-id change. -/
theorem c8_reparent_witness :
    (indentRow visC8 pmC8 [] "a" 1).1 = setParent pmC8 "a" (some "p") ∧
    setParent pmC8 "a" (some "p")
      = [⟨"a", PARENT_COL_ID, parentValue (parentLookup pmC8 "a"),
          parentValue (some "p")⟩] ∧
    (indentRow visC8 pmC8 [] "a" 1).1.length ≤ 1 := by
  have h := c8_reparent_amended visC8 pmC8 [] "a" 1
  exact ⟨h.2.2.2.2.1 "p" (by decide) (by decide),
    h.2.2.2.1 (some "p") (by decide), h.1.1⟩

/-- Membership in the reconciled expansion set: an id is in the result
exactly when it was already expanded or it occurs in the row order with a
nonzero child count. -/
theorem mem_reconcileExpanded {prev rowOrder : List String}
    {childrenOf : List (String × List String)} {a : String} :
    a ∈ reconcileExpanded prev rowOrder childrenOf ↔
      a ∈ prev ∨ (a ∈ rowOrder ∧ childCount childrenOf a ≠ 0) := by
  induction rowOrder generalizing prev with
  | nil => simp [reconcileExpanded]
  | cons o os ih =>
    have hstep : reconcileExpanded prev (o :: os) childrenOf
        = reconcileExpanded
            (if childCount childrenOf o ≠ 0 ∧ o ∉ prev then prev ++ [o] else prev)
            os childrenOf := rfl
    rw [hstep, ih]
    by_cases h1 : childCount childrenOf o ≠ 0
    · by_cases h2 : o ∈ prev
      · rw [if_neg (by simp [h2])]
        simp only [List.mem_cons]
        constructor
        · rintro (h | ⟨h3, h4⟩)
          · exact Or.inl h
          · exact Or.inr ⟨Or.inr h3, h4⟩
        · rintro (h | ⟨h3 | h3, h4⟩)
          · exact Or.inl h
          · subst h3
            exact Or.inl h2
          · exact Or.inr ⟨h3, h4⟩
      · rw [if_pos ⟨h1, h2⟩]
        simp only [List.mem_append, List.mem_cons, List.not_mem_nil, or_false]
        constructor
        · rintro ((h | h) | ⟨h3, h4⟩)
          · exact Or.inl h
          · subst h
            exact Or.inr ⟨Or.inl rfl, h1⟩
          · exact Or.inr ⟨Or.inr h3, h4⟩
        · rintro (h | ⟨h3 | h3, h4⟩)
          · exact Or.inl (Or.inl h)
          · subst h3
            exact Or.inl (Or.inr rfl)
          · exact Or.inr ⟨h3, h4⟩
    · rw [if_neg (fun hcond => h1 hcond.1)]
      simp only [List.mem_cons]
      constructor
      · rintro (h | ⟨h3, h4⟩)
        · exact Or.inl h
        · exact Or.inr ⟨Or.inr h3, h4⟩
      · rintro (h | ⟨h3 | h3, h4⟩)
        · exact Or.inl h
        · subst h3
          exact absurd h4 h1
        · exact Or.inr ⟨h3, h4⟩

/-- Claim C9, amended: the reconciliation effect never removes an id, and
it inserts every id of the row order currently observed to have children —
not only on first observation: any reconciliation run (triggered by a row
order or children-map change) re-inserts a collapsed parent that still has
children. No other id enters the set through reconciliation; removal
happens only through an explicit toggle. -/
theorem c9_expansion_amended (prev rowOrder : List String)
    (childrenOf : List (String × List String)) :
    (∀ id ∈ prev, id ∈ reconcileExpanded prev rowOrder childrenOf) ∧
    (∀ id ∈ rowOrder, childCount childrenOf id ≠ 0 →
      id ∈ reconcileExpanded prev rowOrder childrenOf) ∧
    (∀ id, id ∈ reconcileExpanded prev rowOrder childrenOf →
      id ∈ prev ∨ (id ∈ rowOrder ∧ childCount childrenOf id ≠ 0)) ∧
    (∀ id ∈ prev, toggleExpand prev id = prev.erase id) := by
  refine ⟨?_, ?_, ?_, ?_⟩
  · intro id hid
    exact mem_reconcileExpanded.mpr (Or.inl hid)
  · intro id hid hc
    exact mem_reconcileExpanded.mpr (Or.inr ⟨hid, hc⟩)
  · intro id hid
    exact mem_reconcileExpanded.mp hid
  · intro id hid
    rw [toggleExpand, if_pos hid]

/-- Claim C9, counterexample: the user has collapsed parent `"A"` (the
expansion set is empty) while `"A"` still has the child `"B"`; the next
reconciliation run — triggered by any data or order update, with no user
toggle and no indent/outdent — silently re-inserts `"A"`, re-expanding it. -/
theorem c9_expansion_counterexample :
    reconcileExpanded [] ["A", "B"] [("A", ["B"])] = ["A"] ∧
    "A" ∉ ([] : List String) := by
  refine ⟨by decide, by decide⟩

/-- Claim C9, witness: the amended characterization applied to a concrete
already-expanded parent, which reconciliation keeps. -/
theorem c9_expansion_witness :
    "A" ∈ reconcileExpanded ["A"] ["A", "B"] [("A", ["B"])] :=
  (c9_expansion_amended ["A"] ["A", "B"] [("A", ["B"])]).1 "A" (by decide)

/-- Claim C10: when every cell a paste targets parses to the current
value, and when every cell a delete targets already holds its column's
empty value, the operation is a complete no-op at the public interface —
no patch is emitted, the history is unchanged, and no commit notification
fires; and unconditionally, a paste or delete either leaves the history
untouched or pushes exactly one action consisting of its (nonempty) patch
list, so every action they push contains at least one `CellChange`. -/
theorem c10_noop_paste_delete (g : Grid) (rect : Rect)
    (data2D : List (List JStr)) (h : History) :
    ((∀ r ∈ intRange rect.r0 (pasteMaxR g rect data2D),
      ∀ c ∈ intRange rect.c0 (pasteMaxC g rect data2D),
        (colAt g c).parse
            ((((data2D.get? (r - rect.r0)).getD []).get? (c - rect.c0)).getD [])
          = (rowAt g r).get (colAt g c).id) →
      doPaste g rect data2D h = ⟨[], h, false⟩) ∧
    ((∀ r ∈ List.range' rect.r0 (rect.r1 + 1 - rect.r0),
      ∀ c ∈ List.range' rect.c0 (rect.c1 + 1 - rect.c0),
        (rowAt g r).get (colAt g c).id = emptyFor (colAt g c).type) →
      clearSelectionWithDelete g rect h = ⟨[], h, false⟩) ∧
    ((doPaste g rect data2D h).history = h ∨
      ((doPaste g rect data2D h).patches ≠ [] ∧
        (doPaste g rect data2D h).history
          = h.push ⟨(doPaste g rect data2D h).patches⟩)) ∧
    ((clearSelectionWithDelete g rect h).history = h ∨
      ((clearSelectionWithDelete g rect h).patches ≠ [] ∧
        (clearSelectionWithDelete g rect h).history
          = h.push ⟨(clearSelectionWithDelete g rect h).patches⟩)) := by
  refine ⟨?_, ?_, ?_, ?_⟩
  · intro hyp
    simp only [List.get?_eq_getElem?] at hyp
    have hcs : pasteChanges g rect data2D = [] := by
      rw [pasteChanges, List.flatten_eq_nil_iff]
      intro l hl
      rcases List.mem_map.mp hl with ⟨r, hr, rfl⟩
      rw [List.filterMap_eq_nil_iff]
      intro c hc
      simp only [pasteCell, List.get?_eq_getElem?]
      by_cases hrej : columnRejects (colAt g c)
          ((colAt g c).parse ((data2D[r - rect.r0]?.getD [])[c - rect.c0]?.getD []))
          (rowAt g r) = true
      · rw [if_pos hrej]
      · rw [if_neg (by simp [hrej]), if_pos (hyp r hr c hc).symm]
    simp [doPaste, hcs]
  · intro hyp
    have hcs : deleteChanges g rect = [] := by
      rw [deleteChanges, List.flatten_eq_nil_iff]
      intro l hl
      rcases List.mem_map.mp hl with ⟨r, hr, rfl⟩
      rw [List.filterMap_eq_nil_iff]
      intro c hc
      simp only [deleteCell]
      rw [if_pos (hyp r hr c hc)]
    simp [clearSelectionWithDelete, hcs]
  · by_cases hc : pasteChanges g rect data2D = []
    · exact Or.inl (by simp [doPaste, hc])
    · refine Or.inr ⟨hc, ?_⟩
      simp only [doPaste]
      rw [if_neg (by simpa [List.isEmpty_iff] using hc)]
  · by_cases hc : deleteChanges g rect = []
    · exact Or.inl (by simp [clearSelectionWithDelete, hc])
    · refine Or.inr ⟨hc, ?_⟩
      simp only [clearSelectionWithDelete]
      rw [if_neg (by simpa [List.isEmpty_iff] using hc)]

/-- A one-row grid whose single text cell already holds the empty
string. -/
def exGridC10 : Grid := ⟨[⟨"q0", [("v", .str "")]⟩], [exTextCol]⟩

/-- Claim C10, witness: pasting the single empty cell back over the empty
cell, and deleting the already-empty cell, are both complete no-ops —
no patch, unchanged history, no commit event. -/
theorem c10_noop_witness :
    doPaste exGridC10 ⟨0, 0, 0, 0⟩ [[[]]] History.empty
      = ⟨[], History.empty, false⟩ ∧
    clearSelectionWithDelete exGridC10 ⟨0, 0, 0, 0⟩ History.empty
      = ⟨[], History.empty, false⟩ := by
  have h := c10_noop_paste_delete exGridC10 ⟨0, 0, 0, 0⟩ [[[]]] History.empty
  exact ⟨h.1 (by decide), h.2.1 (by decide)⟩
